import Mathlib

/-!
Verification of `scripts/process_friendlinks.py` (friend-link directory
processor) against its natural-language specification.

The Python script is shallowly embedded below:

* pure helpers (`parse_issue_body`, `process_feed_entries`,
  `update_issue_labels`, the sort in `save_data`) become pure Lean
  functions over `List`/`String`;
* network-touching code (`check_website_robust`,
  `check_website_with_retry`, `resolve_domain`, `fetch_rss_with_fallback`)
  is embedded with an explicit oracle environment describing the outcome
  of each primitive network call, plus an event trace recording the calls
  made, so that ordering/bound claims about the fallback chains are
  statable;
* `datetime.strptime(s, "%Y-%m-%d %H:%M")` followed by `.timestamp()` is
  embedded faithfully (CPython `_strptime` field regexes, calendar
  validation, civil-days epoch arithmetic, UTC process timezone);
* the third-party fuzzy parser `dateutil.parser.parse` used by
  `process_feed_entries` is external and is modelled as an abstract
  oracle `String → Option DateTime`.
-/

/-- A normalized feed post, mirroring the dict built in
`process_feed_entries`: `{'title': ..., 'link': ..., 'published': ...}`. -/
structure Post where
  title : String
  link : String
  published : String
deriving DecidableEq

/-- A directory entry, mirroring the `friend_data` dict built in
`process_single_issue`. -/
structure Entry where
  title : String
  url : String
  icon : String
  description : String
  feed : String
  posts : List Post
  issue_number : Nat
  labels : List String
  last_checked : String
  online : Bool
deriving DecidableEq

/-- Numeric value of a list of decimal digit characters. -/
def digitsVal (ds : List Char) : Nat :=
  ds.foldl (fun a c => 10 * a + (c.toNat - 48)) 0

/-- Gregorian leap-year test, as used by `datetime`'s calendar validation. -/
def isLeap (y : Nat) : Bool :=
  y % 4 == 0 && (y % 100 != 0 || y % 400 == 0)

/-- Length of a month, used to validate the day field as
`datetime.__new__` does. -/
def daysInMonth (y m : Nat) : Nat :=
  if m = 2 then (if isLeap y then 29 else 28)
  else if m = 4 ∨ m = 6 ∨ m = 9 ∨ m = 11 then 30
  else 31

/-- Days from 1970-01-01 to y-m-d in the proleptic Gregorian calendar
(civil-days algorithm); all intermediate divisions act on nonnegative
operands for the validated range `1 ≤ y ≤ 9999`. -/
def daysFromCivil (y m d : Nat) : Int :=
  let yy : Int := if m ≤ 2 then (y : Int) - 1 else (y : Int)
  let era : Int := yy / 400
  let yoe : Int := yy - era * 400
  let mp : Int := ((m : Int) + 9) % 12
  let doy : Int := (153 * mp + 2) / 5 + ((d : Int) - 1)
  let doe : Int := yoe * 365 + yoe / 4 - yoe / 100 + doy
  era * 146097 + doe - 719468

/-- Embedding of
`datetime.strptime(s, '%Y-%m-%d %H:%M').timestamp()` (UTC process
timezone, as in the CI environment the script runs in): `none` when
`strptime`/`datetime` raises `ValueError`, otherwise the epoch-seconds
value. Field syntax follows CPython `_strptime`: `%Y` is exactly four
digits, `%m`/`%d`/`%H`/`%M` are one or two digits within their regex
ranges, the format's space matches one or more whitespace characters, and
the whole string must be consumed. -/
def parse_sort_time (s : String) : Option Int :=
  let cs := s.toList
  let ySplit := cs.span Char.isDigit
  if ySplit.1.length ≠ 4 then none else
  let y := digitsVal ySplit.1
  match ySplit.2 with
  | '-' :: r2 =>
    let mSplit := r2.span Char.isDigit
    if mSplit.1.length = 0 ∨ 2 < mSplit.1.length then none else
    let m := digitsVal mSplit.1
    if m < 1 ∨ 12 < m then none else
    match mSplit.2 with
    | '-' :: r4 =>
      let dSplit := r4.span Char.isDigit
      if dSplit.1.length = 0 ∨ 2 < dSplit.1.length then none else
      let d := digitsVal dSplit.1
      if d < 1 ∨ 31 < d then none else
      match dSplit.2 with
      | c :: r5 =>
        if ¬ c.isWhitespace then none else
        let r6 := r5.dropWhile Char.isWhitespace
        let hSplit := r6.span Char.isDigit
        if hSplit.1.length = 0 ∨ 2 < hSplit.1.length then none else
        let h := digitsVal hSplit.1
        if 23 < h then none else
        match hSplit.2 with
        | ':' :: r8 =>
          let minSplit := r8.span Char.isDigit
          if minSplit.1.length = 0 ∨ 2 < minSplit.1.length then none else
          let mi := digitsVal minSplit.1
          if 59 < mi then none else
          if minSplit.2 ≠ [] then none else
          if y < 1 then none else
          if daysInMonth y m < d then none else
          some (daysFromCivil y m d * 86400 + (h : Int) * 3600 + (mi : Int) * 60)
        | _ => none
      | [] => none
    | _ => none
  | _ => none

/-- The `_sort_time` computed for an entry in `save_data`: the parsed
timestamp of the first post's `published` field, and `0` when the entry
has no posts or the timestamp fails to parse. -/
def sortTime (e : Entry) : Int :=
  match e.posts with
  | [] => 0
  | p :: _ => match parse_sort_time p.published with
    | some t => t
    | none => 0

/-- The comparison `save_data` sorts by: `a` may come before `b` iff
`a`'s sort key is at least `b`'s (Python `sort(key=..., reverse=True)`). -/
def sortLE (a b : Entry) : Prop := sortTime b ≤ sortTime a

instance : DecidableRel sortLE := fun _ _ => Int.decLe _ _

instance : IsTotal Entry sortLE := ⟨fun _ _ => Int.le_total _ _⟩

instance : IsTrans Entry sortLE := ⟨fun _ _ _ h1 h2 => le_trans h2 h1⟩

/-- Embedding of the reordering performed by `save_data`: Python
`list.sort(key=..., reverse=True)` is a stable sort placing larger
`_sort_time` first, which is exactly a stable insertion sort under
`sortLE`. The temporary `_sort_time` bookkeeping field is added and
removed inside `save_data` and never persisted, so it does not appear in
`Entry`. -/
def save_data (content : List Entry) : List Entry :=
  List.insertionSort sortLE content

/-- Characters of a string with trailing whitespace removed (Python
`\s*` at end of line; `Char.isWhitespace` stands in for the regex's
whitespace class). Implemented on `List Char` so that the kernel can
evaluate it on concrete inputs. -/
def trimRightChars (cs : List Char) : List Char :=
  (cs.reverse.dropWhile Char.isWhitespace).reverse

/-- Characters of a string with leading and trailing whitespace removed
(Python `str.strip()`). -/
def trimChars (cs : List Char) : List Char :=
  trimRightChars (cs.dropWhile Char.isWhitespace)

/-- Whether a line can host a field's section marker for the regex
`MARKER\s*\n...`: some occurrence of `marker` in the line is followed by
nothing but whitespace (equivalently, the right-trimmed line ends with
the marker, since no marker ends in whitespace). -/
def markerLine (marker line : String) : Bool :=
  marker.toList.isSuffixOf (trimRightChars line.toList)

/-- First non-blank line of `lines`, stripped — the text the regex group
`\s*\n\s*([^\n]+)` captures (after Python `.strip()`): greedy `\s*`
skips blank lines and leading whitespace, `[^\n]+` takes the rest of
that line, `.strip()` removes its trailing whitespace. -/
def firstContent (lines : List String) : Option String :=
  match lines.find? (fun l => trimChars l.toList ≠ []) with
  | some l => some (String.mk (trimChars l.toList))
  | none => none

/-- Embedding of one `re.search(r'MARKER\s*\n\s*([^\n]+)', body)` call in
`parse_issue_body`, over the body split into lines: find the earliest
marker-hosting line that admits a match. Greedy backtracking over
`\s*\n\s*` makes the group `[^\n]+` capture the first later non-blank
line (stripped value) when one exists; when the marker is followed only
by blank lines, the group can still capture the whitespace of a
whitespace-bearing blank line (a line that is non-empty but all
whitespace), which Python then strips to the empty string — the field is
present with value `""`. Only when every later line is the zero-length
string is there no match at this occurrence, and the engine keeps
searching at later occurrences, hence the recursive fallthrough. -/
def findField (marker : String) : List String → Option String
  | [] => none
  | l :: rest =>
    if markerLine marker l then
      match firstContent rest with
      | some v => some v
      | none =>
        if rest.any (fun s => s ≠ "") then some ""
        else findField marker rest
    else findField marker rest

/-- The partial mapping returned by `parse_issue_body`: each field is
independently `re.search`ed, absent fields are simply omitted. -/
structure ParsedInfo where
  title : Option String
  url : Option String
  avatar : Option String
  description : Option String
  feed : Option String
deriving DecidableEq

/-- Embedding of `parse_issue_body`: one independent search per field
with the five anchored section markers. The body is modelled as its list
of lines. -/
def parse_issue_body (body : List String) : ParsedInfo :=
  { title := findField "### 网站名称" body
    url := findField "### 网站地址" body
    avatar := findField "### 头像地址" body
    description := findField "### 网站描述" body
    feed := findField "### RSS 订阅地址" body }

/-- The reserved status-label set `STATUS_LABELS`
(online, offline, restricted, approved, pending). -/
def STATUS_LABELS : List String := ["在线", "离线", "访问受限", "已通过", "待处理"]

/-- Embedding of the label computation in `update_issue_labels`: drop the
current labels that belong to `STATUS_LABELS`, keep everything else, and
append the new status labels. The surrounding HTTP GET/PUT is the
external issue-tracker transport. -/
def update_issue_labels (current new_labels : List String) : List String :=
  current.filter (fun label => !(STATUS_LABELS.contains label)) ++ new_labels

/-- The URL fields `check_website_robust` reads through
`urllib.parse.urlparse`; the raw string is kept because
`url.replace(domain, ip)` operates on it. -/
structure Url where
  raw : String
  hostname : String
  scheme : String
  port : Option Nat
deriving DecidableEq

/-- Outcome of a single `requests.get` call as discriminated by the
probe's exception handlers: HTTP response with a status code, a
`ConnectionError` whose text contains `NameResolutionError`, any other
`ConnectionError`, or any other exception. -/
inductive GetOutcome
  | ok (status : Nat)
  | connNameRes
  | connOther
  | otherErr
deriving DecidableEq

/-- Network oracle for the reachability probe: the outcome of the n-th
`requests.get` issued, the outcome of the n-th `socket.gethostbyname`
call, and the `connect_ex` error code of the single TCP connect. -/
structure ProbeEnv where
  get : Nat → GetOutcome
  ghbn : Nat → Option String
  tcp : Int

/-- Trace event: one primitive network operation performed by the probe. -/
inductive ProbeEvent
  | getDirect (url : String)
  | resolveTry (host : String)
  | getIp (url : String) (hostHeader : String)
  | tcpConn (ip : String) (port : Nat)
deriving DecidableEq

/-- Oracle cursor: how many `requests.get` and `gethostbyname` calls have
been consumed so far. -/
structure ProbeState where
  g : Nat
  r : Nat
deriving DecidableEq

/-- The loop body of `resolve_domain`: up to `n` `gethostbyname`
attempts (the Python loop iterates over the three-resolver list but
issues the same `socket.gethostbyname(domain)` call each round),
returning the first successful IP. -/
def resolveLoop (env : ProbeEnv) (host : String) : Nat → ProbeState →
    Option String × ProbeState × List ProbeEvent
  | 0, s => (none, s, [])
  | n + 1, s =>
    match env.ghbn s.r with
    | some ip => (some ip, ⟨s.g, s.r + 1⟩, [ProbeEvent.resolveTry host])
    | none =>
      let rest := resolveLoop env host n ⟨s.g, s.r + 1⟩
      (rest.1, rest.2.1, ProbeEvent.resolveTry host :: rest.2.2)

/-- Embedding of `resolve_domain`: three resolver rounds, `none` when all
fail (the outer `except` path also returns `None`). -/
def resolve_domain (env : ProbeEnv) (host : String) (s : ProbeState) :
    Option String × ProbeState × List ProbeEvent :=
  resolveLoop env host 3 s

/-- One iteration of the `for attempt in range(max_retries)` loop of
`check_website_with_retry`: a direct GET; on HTTP 200 success; on a
name-resolution `ConnectionError`, resolve the host and retry once with
the IP literal substituted into the URL (`url.replace(domain, ip)`) and
the original hostname as `Host` header; every other outcome fails the
attempt. -/
def oneAttempt (env : ProbeEnv) (url : Url) (s : ProbeState) :
    Bool × ProbeState × List ProbeEvent :=
  let out := env.get s.g
  let s1 : ProbeState := ⟨s.g + 1, s.r⟩
  let ev := ProbeEvent.getDirect url.raw
  match out with
  | GetOutcome.ok status => (status == 200, s1, [ev])
  | GetOutcome.connOther => (false, s1, [ev])
  | GetOutcome.otherErr => (false, s1, [ev])
  | GetOutcome.connNameRes =>
    let res := resolve_domain env url.hostname s1
    match res.1 with
    | none => (false, res.2.1, ev :: res.2.2)
    | some ip =>
      let s2 := res.2.1
      let newUrl := url.raw.replace url.hostname ip
      let out2 := env.get s2.g
      let s3 : ProbeState := ⟨s2.g + 1, s2.r⟩
      let ev2 := ProbeEvent.getIp newUrl url.hostname
      match out2 with
      | GetOutcome.ok status2 => (status2 == 200, s3, ev :: res.2.2 ++ [ev2])
      | _ => (false, s3, ev :: res.2.2 ++ [ev2])

/-- The retry loop of `check_website_with_retry`, short-circuiting on the
first successful attempt. -/
def retryLoop (env : ProbeEnv) (url : Url) : Nat → ProbeState →
    Bool × ProbeState × List ProbeEvent
  | 0, s => (false, s, [])
  | n + 1, s =>
    let a := oneAttempt env url s
    if a.1 then (true, a.2.1, a.2.2)
    else
      let rest := retryLoop env url n a.2.1
      (rest.1, rest.2.1, a.2.2 ++ rest.2.2)

/-- Embedding of `check_website_with_retry(url, max_retries=3)`. -/
def check_website_with_retry (env : ProbeEnv) (url : Url)
    (max_retries : Nat := 3) (s : ProbeState := ⟨0, 0⟩) :
    Bool × ProbeState × List ProbeEvent :=
  retryLoop env url max_retries s

/-- Embedding of `check_website_robust`: method 1 is the retried direct
GET (with its embedded IP-literal retries); only when it fails does
method 2 run — resolve the hostname (failure means `return False`) and
attempt one raw TCP connect to the scheme-implied port, reachable iff
`connect_ex` returns 0. -/
def check_website_robust (env : ProbeEnv) (url : Url) :
    Bool × List ProbeEvent :=
  let m1 := check_website_with_retry env url
  if m1.1 then (true, m1.2.2)
  else
    let port := url.port.getD (if url.scheme = "https" then 443 else 80)
    let res := resolve_domain env url.hostname m1.2.1
    match res.1 with
    | none => (false, m1.2.2 ++ res.2.2)
    | some ip =>
      (env.tcp == 0, m1.2.2 ++ res.2.2 ++ [ProbeEvent.tcpConn ip port])

/-- Calendar fields of a `datetime` as returned by
`dateutil.parser.parse`, restricted to what
`strftime('%Y-%m-%d %H:%M')` reads. -/
structure DateTime where
  year : Nat
  month : Nat
  day : Nat
  hour : Nat
  minute : Nat
deriving DecidableEq

/-- Zero-pad a numeral to `w` digits, as `strftime` does. -/
def padNum (w n : Nat) : String :=
  let s := toString n
  let l := s.length
  String.mk (List.replicate (w - l) '0') ++ s

/-- `dt.strftime('%Y-%m-%d %H:%M')`. -/
def fmtCanonical (dt : DateTime) : String :=
  padNum 4 dt.year ++ "-" ++ padNum 2 dt.month ++ "-" ++ padNum 2 dt.day ++
    " " ++ padNum 2 dt.hour ++ ":" ++ padNum 2 dt.minute

/-- A raw feed entry as surfaced by `feedparser`: each field is `none`
when `hasattr(entry, ...)` is false. -/
structure FeedEntry where
  title : Option String
  link : Option String
  published : Option String
  updated : Option String
deriving DecidableEq

/-- A parsed feed (`feedparser.parse` result): its entry list. -/
structure Feed where
  entries : List FeedEntry
deriving DecidableEq

/-- The loop body of `process_feed_entries` for one entry: pick
`published`, else `updated`; `if published:` is false for the missing
case and for the empty string; otherwise try `dateutil.parser.parse`
(abstract oracle `dparse`) and reformat canonically, falling back to the
raw string on parse failure; `title`/`link` default to the empty
string. -/
def normalizePost (dparse : String → Option DateTime) (e : FeedEntry) : Post :=
  let published : Option String :=
    match e.published with
    | some p => some p
    | none => e.updated
  let published_time : String :=
    match published with
    | none => ""
    | some p =>
      if p = "" then ""
      else
        match dparse p with
        | some dt => fmtCanonical dt
        | none => p
  { title := (match e.title with | some t => t | none => "")
    link := (match e.link with | some l => l | none => "")
    published := published_time }

/-- The accumulation loop of `process_feed_entries` over
`feed.entries[:max_posts]`. -/
def feedLoop (dparse : String → Option DateTime) : List FeedEntry → List Post
  | [] => []
  | e :: rest => normalizePost dparse e :: feedLoop dparse rest

/-- Embedding of `process_feed_entries(feed, max_posts)`. -/
def process_feed_entries (dparse : String → Option DateTime) (feed : Feed)
    (max_posts : Nat) : List Post :=
  feedLoop dparse (feed.entries.take max_posts)

/-- Oracle for `fetch_rss_with_fallback`: the outcome of the direct
fetch-and-parse (`none` = some exception up to `raise_for_status`), the
outcome of `resolve_domain`, the outcome of the IP-literal
fetch-and-parse, and the `dateutil` parser used during normalization. -/
structure FeedEnv where
  dparse : String → Option DateTime
  direct : Option Feed
  resolved : Option String
  ipFetch : Option Feed

/-- Embedding of `fetch_rss_with_fallback(feed_url, max_posts=3)`:
method 1 direct fetch; on failure method 2 resolves the hostname and
retries with the IP literal and a `Host` header; when that also fails
(or resolution fails) method 3 just returns `[]`. -/
def fetch_rss_with_fallback (env : FeedEnv) (max_posts : Nat := 3) :
    List Post :=
  match env.direct with
  | some feed => process_feed_entries env.dparse feed max_posts
  | none =>
    match env.resolved with
    | some _ =>
      match env.ipFetch with
      | some feed => process_feed_entries env.dparse feed max_posts
      | none => []
    | none => []

/-- The `issue` dict fields `process_single_issue` reads: number, body
(as lines), current label names. -/
structure Issue where
  number : Nat
  body : List String
  labels : List String
deriving DecidableEq

/-- The `friend_data` dict built in `process_single_issue` once the
required fields are present: `t`/`u`/`fd` are the parsed title, url and
feed, `online` the probe verdict, `posts` the fetched posts, `now` the
`datetime.now()` rendering used for `last_checked`. -/
def friendData (info : ParsedInfo) (t u fd : String) (posts : List Post)
    (issue : Issue) (now : String) (online : Bool) : Entry :=
  { title := t
    url := u
    icon := info.avatar.getD ""
    description := info.description.getD ""
    feed := fd
    posts := posts
    issue_number := issue.number
    labels := issue.labels
    last_checked := now
    online := online }

/-- The `existing_index` search loop of `process_single_issue`: index of
the first entry whose `issue_number` matches, if any. -/
def findEntryIdx (n : Nat) : List Entry → Option Nat
  | [] => none
  | e :: rest =>
    if e.issue_number = n then some 0
    else (findEntryIdx n rest).map (· + 1)

/-- The add-or-update step of `process_single_issue`: replace the entry
at `existing_index` when the search found one, otherwise append the new
entry at the end. -/
def upsertEntry (fr : Entry) (n : Nat) (data : List Entry) : List Entry :=
  match findEntryIdx n data with
  | some i => data.set i fr
  | none => data ++ [fr]

/-- Outcome of `process_single_issue`: the (possibly) mutated directory
content, the boolean the function returns, and the `new_labels` argument
passed to `update_issue_labels` (`none` when no label update happens,
i.e. on the incomplete-fields rejection). Comment posting is external
transport and not modelled. -/
structure ProcessResult where
  directory : List Entry
  accepted : Bool
  newLabels : Option (List String)
deriving DecidableEq

/-- Embedding of `process_single_issue(issue, data)`. The two network
calls `check_website_robust(info['url'])` and
`fetch_rss_with_fallback(info['feed'])` are abstracted as oracle
functions `probe` and `fetch` of the respective URL strings. -/
def process_single_issue (probe : String → Bool)
    (fetch : String → List Post) (now : String) (issue : Issue)
    (data : List Entry) : ProcessResult :=
  let info := parse_issue_body issue.body
  match info.title, info.url, info.feed with
  | some t, some u, some fd =>
    let website_online := probe u
    let status_label := if website_online then "在线" else "访问受限"
    let posts := fetch fd
    if posts = [] then
      { directory := data, accepted := false, newLabels := some [status_label] }
    else
      let friend := friendData info t u fd posts issue now website_online
      { directory := upsertEntry friend issue.number data, accepted := true
        newLabels := some [status_label, "已通过"] }
  | _, _, _ =>
    { directory := data, accepted := false, newLabels := none }

/-!
## Specification-side predicates and general lemmas
-/

/-- The spec's presence condition for a parsed field: some line hosts the
section marker and a later line has non-blank content. -/
def hasField (marker : String) (lines : List String) : Prop :=
  ∃ pre l rest, lines = pre ++ l :: rest ∧ markerLine marker l = true ∧
    ∃ v ∈ rest, trimChars v.toList ≠ []

theorem firstContent_none {lines : List String}
    (h : firstContent lines = none) : ∀ v ∈ lines, trimChars v.toList = [] := by
  intro v hv
  unfold firstContent at h
  cases hf : lines.find? (fun l => trimChars l.toList ≠ []) with
  | some l => rw [hf] at h; exact absurd h (by simp)
  | none =>
    have := List.find?_eq_none.mp hf v hv
    simpa using this

theorem firstContent_some {lines : List String} {v : String}
    (h : firstContent lines = some v) : ∃ u ∈ lines, trimChars u.toList ≠ [] := by
  unfold firstContent at h
  cases hf : lines.find? (fun l => trimChars l.toList ≠ []) with
  | none => rw [hf] at h; exact absurd h (by simp)
  | some l =>
    refine ⟨l, List.mem_of_find?_eq_some hf, ?_⟩
    have := List.find?_some hf
    simpa using this

/-- Faithful presence condition for a parsed field: some line hosts the
section marker and a later line contains at least one character — a later
non-blank line yields its stripped text, while later whitespace-only
(but non-empty) lines still let the regex group capture whitespace,
which strips to the empty string. -/
def hasFieldAmended (marker : String) (lines : List String) : Prop :=
  ∃ pre l rest, lines = pre ++ l :: rest ∧ markerLine marker l = true ∧
    ∃ v ∈ rest, v ≠ ""

theorem findField_isSome_iff_amended (m : String) (lines : List String) :
    ((findField m lines).isSome = true) ↔ hasFieldAmended m lines := by
  induction lines with
  | nil =>
    simp only [findField, Option.isSome_none]
    constructor
    · intro h; exact absurd h (by simp)
    · rintro ⟨pre, l, rest, heq, -, -⟩
      exact absurd heq (by simp)
  | cons x ls ih =>
    simp only [findField]
    by_cases hm : markerLine m x = true
    · rw [if_pos hm]
      cases hfc : firstContent ls with
      | some v =>
        refine iff_of_true (by simp) ?_
        rcases firstContent_some hfc with ⟨u, hu, hune⟩
        have hne : u ≠ "" := by
          intro he
          rw [he] at hune
          exact hune rfl
        exact ⟨[], x, ls, rfl, hm, u, hu, hne⟩
      | none =>
        cases hany : ls.any (fun s => s ≠ "") with
        | true =>
          refine iff_of_true (by simp) ?_
          rcases List.any_eq_true.mp hany with ⟨u, hu, hune⟩
          exact ⟨[], x, ls, rfl, hm, u, hu, by simpa using hune⟩
        | false =>
          have hred : (if (false : Bool) = true then some "" else findField m ls)
              = findField m ls := by simp
          rw [hred, ih]
          have hall : ∀ v ∈ ls, v = "" := by
            intro v hv
            by_contra hne
            have hone : ls.any (fun s => s ≠ "") = true :=
              List.any_eq_true.mpr ⟨v, hv, by simpa using hne⟩
            rw [hone] at hany
            exact absurd hany (by simp)
          constructor
          · rintro ⟨pre, l, rest, heq, hml, hv⟩
            exact ⟨x :: pre, l, rest, by rw [heq]; rfl, hml, hv⟩
          · rintro ⟨pre, l, rest, heq, hml, u, hu, hune⟩
            cases pre with
            | nil =>
              simp only [List.nil_append, List.cons.injEq] at heq
              exact absurd (hall u (heq.2 ▸ hu)) hune
            | cons p pre =>
              simp only [List.cons_append, List.cons.injEq] at heq
              exact ⟨pre, l, rest, heq.2, hml, u, hu, hune⟩
    · rw [if_neg hm]
      rw [ih]
      constructor
      · rintro ⟨pre, l, rest, heq, hml, hv⟩
        exact ⟨x :: pre, l, rest, by rw [heq]; rfl, hml, hv⟩
      · rintro ⟨pre, l, rest, heq, hml, hv⟩
        cases pre with
        | nil =>
          simp only [List.nil_append, List.cons.injEq] at heq
          exact absurd (heq.1 ▸ hml) hm
        | cons p pre =>
          simp only [List.cons_append, List.cons.injEq] at heq
          exact ⟨pre, l, rest, heq.2, hml, hv⟩

/-- C6 counterexample: the claim's presence condition — a field is
present exactly when its marker line is followed by a non-empty content
line — is false of the program. In the body whose marker line is
followed only by the whitespace-bearing blank line `" "`, the regex
group `[^\n]+` backtracks onto that whitespace, so `title` is present
with value `""` even though no non-blank content line follows. -/
theorem parse_presence_claim_false :
    ¬ (((parse_issue_body ["### 网站名称", " "]).title.isSome = true) ↔
      hasField "### 网站名称" ["### 网站名称", " "]) := by
  intro h
  have h1 : (parse_issue_body ["### 网站名称", " "]).title.isSome = true := by
    decide
  rcases h.mp h1 with ⟨pre, l, rest, heq, hml, v, hv, hvne⟩
  cases pre with
  | nil =>
    simp only [List.nil_append, List.cons.injEq] at heq
    obtain ⟨-, hrest⟩ := heq
    have hvs : v = " " := by
      rw [← hrest] at hv
      simpa using hv
    rw [hvs] at hvne
    exact hvne (by decide)
  | cons p pre2 =>
    simp only [List.cons_append, List.cons.injEq] at heq
    obtain ⟨-, heq2⟩ := heq
    cases pre2 with
    | nil =>
      simp only [List.nil_append, List.cons.injEq] at heq2
      obtain ⟨hl, hrest⟩ := heq2
      rw [← hl] at hml
      exact absurd hml (by decide)
    | cons q pre3 =>
      simp only [List.cons_append, List.cons.injEq] at heq2
      exact absurd heq2.2 (by simp)

/-- C6 (amended): the submission parser is total and partial by design —
for every input text it returns a mapping (the Lean embedding is a total
function, so no exception is possible), and the mapping contains a field
exactly when some line hosting that field's section marker is followed
by a later line containing at least one character: the stripped first
non-blank line is the value when one exists, and the backtracked
whitespace capture yields value `""` when only whitespace-bearing blank
lines follow; a field whose marker is absent or followed by nothing but
zero-length lines is omitted rather than an error. -/
theorem parse_issue_body_field_presence_amended (body : List String) :
    (((parse_issue_body body).title.isSome = true) ↔
      hasFieldAmended "### 网站名称" body) ∧
    (((parse_issue_body body).url.isSome = true) ↔
      hasFieldAmended "### 网站地址" body) ∧
    (((parse_issue_body body).avatar.isSome = true) ↔
      hasFieldAmended "### 头像地址" body) ∧
    (((parse_issue_body body).description.isSome = true) ↔
      hasFieldAmended "### 网站描述" body) ∧
    (((parse_issue_body body).feed.isSome = true) ↔
      hasFieldAmended "### RSS 订阅地址" body) :=
  ⟨findField_isSome_iff_amended _ _, findField_isSome_iff_amended _ _,
    findField_isSome_iff_amended _ _, findField_isSome_iff_amended _ _,
    findField_isSome_iff_amended _ _⟩

/-- Concrete submission body used by several witnesses. -/
def body0 : List String :=
  ["### 网站名称", "Blog", "", "### 网站地址", "https://a.example", "",
   "### RSS 订阅地址", "https://a.example/feed"]

theorem parse_issue_body_field_presence_amended_witness :
    (parse_issue_body body0).title.isSome = true ∧
    (parse_issue_body ["### 网站名称", " "]).title.isSome = true :=
  ⟨(parse_issue_body_field_presence_amended body0).1.mpr
    ⟨[], "### 网站名称", body0.tail, rfl, by decide, "Blog", by decide,
      by decide⟩,
   (parse_issue_body_field_presence_amended ["### 网站名称", " "]).1.mpr
    ⟨[], "### 网站名称", [" "], rfl, by decide, " ", by decide, by decide⟩⟩

/-- C9: the label update removes only labels in the reserved status set:
every current label outside `STATUS_LABELS` is kept, any label that is
dropped was a status label, and the result is a preserved-in-order
selection of the current labels followed by the new status labels. -/
theorem update_labels_preserves (current new_labels : List String) :
    (∀ l ∈ current, l ∉ STATUS_LABELS → l ∈ update_issue_labels current new_labels) ∧
    (∀ l ∈ current, l ∉ update_issue_labels current new_labels → l ∈ STATUS_LABELS) ∧
    (∃ preserved, update_issue_labels current new_labels = preserved ++ new_labels ∧
      preserved.Sublist current ∧ ∀ l ∈ preserved, l ∉ STATUS_LABELS) := by
  refine ⟨?_, ?_, ?_⟩
  · intro l hl hns
    unfold update_issue_labels
    refine List.mem_append_left _ ?_
    refine List.mem_filter.mpr ⟨hl, ?_⟩
    simpa using hns
  · intro l hl hnr
    by_contra hns
    apply hnr
    unfold update_issue_labels
    refine List.mem_append_left _ (List.mem_filter.mpr ⟨hl, ?_⟩)
    simpa using hns
  · refine ⟨current.filter (fun label => !(STATUS_LABELS.contains label)), rfl,
      List.filter_sublist _, ?_⟩
    intro l hl
    have := (List.mem_filter.mp hl).2
    simpa using this

theorem update_labels_preserves_witness :
    "友链申请" ∉ STATUS_LABELS ∧
    "友链申请" ∈ update_issue_labels ["友链申请", "待处理"] ["在线", "已通过"] :=
  ⟨by decide,
    (update_labels_preserves ["友链申请", "待处理"] ["在线", "已通过"]).1
      "友链申请" (by decide) (by decide)⟩

/-- C10: a feed entry with neither `published` nor `updated` still yields
a post whose `published` field is present and equal to the empty string
(the embedding is a total function, so no exception is possible and the
key cannot be absent), and an entry whose first post it is gets sort
time zero in `save_data`'s ordering. -/
theorem missing_time_normalizes_empty (dparse : String → Option DateTime)
    (e : FeedEntry) (hp : e.published = none) (hu : e.updated = none) :
    (normalizePost dparse e).published = "" ∧
    ∀ en : Entry, en.posts.head? = some (normalizePost dparse e) →
      sortTime en = 0 := by
  have hpub : (normalizePost dparse e).published = "" := by
    unfold normalizePost
    rw [hp, hu]
  refine ⟨hpub, ?_⟩
  intro en hh
  unfold sortTime
  cases hps : en.posts with
  | nil => rfl
  | cons p rest =>
    rw [hps] at hh
    simp only [List.head?_cons, Option.some.injEq] at hh
    rw [hh]
    dsimp only
    rw [hpub]
    have : parse_sort_time "" = none := by decide
    rw [this]

/-- Concrete feed entry with no time fields, for the C10 witness. -/
def e0NoTime : FeedEntry :=
  { title := some "T", link := some "L", published := none, updated := none }

theorem missing_time_normalizes_empty_witness :
    (normalizePost (fun _ => none) e0NoTime).published = "" ∧
    sortTime
      { title := "A", url := "", icon := "", description := "", feed := "",
        posts := [normalizePost (fun _ => none) e0NoTime], issue_number := 1,
        labels := [], last_checked := "", online := true } = 0 :=
  ⟨(missing_time_normalizes_empty (fun _ => none) e0NoTime rfl rfl).1,
    (missing_time_normalizes_empty (fun _ => none) e0NoTime rfl rfl).2 _ rfl⟩

/-!
## Upsert lemmas for the reconciliation claims
-/

theorem findEntryIdx_none_iff (n : Nat) (data : List Entry) :
    findEntryIdx n data = none ↔ ∀ e ∈ data, e.issue_number ≠ n := by
  induction data with
  | nil => simp [findEntryIdx]
  | cons e rest ih =>
    unfold findEntryIdx
    by_cases he : e.issue_number = n
    · rw [if_pos he]
      refine iff_of_false (by simp) ?_
      intro h
      exact absurd he (h e (List.mem_cons_self e rest))
    · rw [if_neg he]
      constructor
      · intro h
        have hrest : findEntryIdx n rest = none := by
          cases hfi : findEntryIdx n rest with
          | none => rfl
          | some j => rw [hfi] at h; exact absurd h (by simp)
        intro x hx
        rcases List.mem_cons.mp hx with hxe | hxr
        · rw [hxe]; exact he
        · exact (ih.mp hrest) x hxr
      · intro h
        have hrest := ih.mpr (fun x hx => h x (List.mem_cons_of_mem _ hx))
        rw [hrest]
        rfl

theorem upsertEntry_cons (fr : Entry) (n : Nat) (e : Entry)
    (rest : List Entry) :
    upsertEntry fr n (e :: rest) =
      if e.issue_number = n then fr :: rest
      else e :: upsertEntry fr n rest := by
  unfold upsertEntry
  by_cases he : e.issue_number = n
  · rw [if_pos he]
    have h0 : findEntryIdx n (e :: rest) = some 0 := by
      simp [findEntryIdx, he]
    rw [h0]
    rfl
  · rw [if_neg he]
    have hfe : findEntryIdx n (e :: rest) = (findEntryIdx n rest).map (· + 1) := by
      simp [findEntryIdx, he]
    rw [hfe]
    cases hfi : findEntryIdx n rest with
    | none => simp
    | some j => simp

theorem upsertEntry_mem (fr : Entry) (n : Nat) (data : List Entry) :
    fr ∈ upsertEntry fr n data := by
  induction data with
  | nil => simp [upsertEntry, findEntryIdx]
  | cons e rest ih =>
    rw [upsertEntry_cons]
    by_cases he : e.issue_number = n
    · rw [if_pos he]; exact List.mem_cons_self _ _
    · rw [if_neg he]; exact List.mem_cons_of_mem _ ih

theorem upsertEntry_subset (fr : Entry) (n : Nat) (data : List Entry) :
    ∀ b ∈ upsertEntry fr n data, b ∈ data ∨ b = fr := by
  induction data with
  | nil =>
    intro b hb
    simp [upsertEntry, findEntryIdx] at hb
    exact Or.inr hb
  | cons e rest ih =>
    intro b hb
    rw [upsertEntry_cons] at hb
    by_cases he : e.issue_number = n
    · rw [if_pos he] at hb
      rcases List.mem_cons.mp hb with hbf | hbr
      · exact Or.inr hbf
      · exact Or.inl (List.mem_cons_of_mem _ hbr)
    · rw [if_neg he] at hb
      rcases List.mem_cons.mp hb with hbe | hbu
      · exact Or.inl (hbe ▸ List.mem_cons_self _ _)
      · rcases ih b hbu with hbr | hbf
        · exact Or.inl (List.mem_cons_of_mem _ hbr)
        · exact Or.inr hbf

theorem upsertEntry_filter (fr : Entry) (n : Nat) (data : List Entry)
    (hfr : fr.issue_number = n)
    (hnd : data.Pairwise (fun a b => a.issue_number ≠ b.issue_number)) :
    (upsertEntry fr n data).filter (fun e => e.issue_number == n) = [fr] := by
  have hfrb : (fr.issue_number == n) = true := by simp [hfr]
  induction data with
  | nil =>
    simp only [upsertEntry, findEntryIdx, List.append_nil, List.nil_append]
    simp [List.filter, hfrb]
  | cons e rest ih =>
    rcases List.pairwise_cons.mp hnd with ⟨hhead, htail⟩
    rw [upsertEntry_cons]
    by_cases he : e.issue_number = n
    · rw [if_pos he]
      rw [List.filter_cons, if_pos (by simpa using hfrb)]
      have hnil : rest.filter (fun x => x.issue_number == n) = [] := by
        refine List.filter_eq_nil_iff.mpr ?_
        intro b hb
        have := hhead b hb
        rw [he] at this
        simpa using this.symm
      rw [hnil]
    · rw [if_neg he]
      rw [List.filter_cons, if_neg (by simpa using he)]
      exact ih htail

theorem upsertEntry_pairwise (fr : Entry) (n : Nat) (data : List Entry)
    (hfr : fr.issue_number = n)
    (hnd : data.Pairwise (fun a b => a.issue_number ≠ b.issue_number)) :
    (upsertEntry fr n data).Pairwise
      (fun a b => a.issue_number ≠ b.issue_number) := by
  induction data with
  | nil => simp [upsertEntry, findEntryIdx]
  | cons e rest ih =>
    rcases List.pairwise_cons.mp hnd with ⟨hhead, htail⟩
    rw [upsertEntry_cons]
    by_cases he : e.issue_number = n
    · rw [if_pos he]
      refine List.pairwise_cons.mpr ⟨?_, htail⟩
      intro b hb
      rw [hfr, ← he]
      exact hhead b hb
    · rw [if_neg he]
      refine List.pairwise_cons.mpr ⟨?_, ih htail⟩
      intro b hb
      rcases upsertEntry_subset fr n rest b hb with hbr | hbf
      · exact hhead b hbr
      · rw [hbf, hfr]
        exact he

theorem process_accepted_directory (probe : String → Bool)
    (fetch : String → List Post) (now : String) (issue : Issue)
    (data : List Entry) (t u fd : String)
    (ht : (parse_issue_body issue.body).title = some t)
    (hu : (parse_issue_body issue.body).url = some u)
    (hf : (parse_issue_body issue.body).feed = some fd)
    (hp : fetch fd ≠ []) :
    process_single_issue probe fetch now issue data =
      { directory :=
          upsertEntry
            (friendData (parse_issue_body issue.body) t u fd (fetch fd)
              issue now (probe u)) issue.number data
        accepted := true
        newLabels := some [(if probe u then "在线" else "访问受限"), "已通过"] } := by
  unfold process_single_issue
  dsimp only
  rw [ht, hu, hf]
  dsimp only
  rw [if_neg hp]

/-- C3: rejection is atomic — when a required field is missing after
parsing, or the feed fetch yields zero posts, the directory is returned
completely unchanged and the submission is reported as failed. -/
theorem process_rejection_atomic (probe : String → Bool)
    (fetch : String → List Post) (now : String) (issue : Issue)
    (data : List Entry)
    (h : (parse_issue_body issue.body).title = none ∨
         (parse_issue_body issue.body).url = none ∨
         (parse_issue_body issue.body).feed = none ∨
         (∃ fd, (parse_issue_body issue.body).feed = some fd ∧ fetch fd = [])) :
    (process_single_issue probe fetch now issue data).directory = data ∧
    (process_single_issue probe fetch now issue data).accepted = false := by
  unfold process_single_issue
  dsimp only
  cases hti : (parse_issue_body issue.body).title with
  | none => exact ⟨rfl, rfl⟩
  | some t =>
    cases hui : (parse_issue_body issue.body).url with
    | none => exact ⟨rfl, rfl⟩
    | some u =>
      cases hfi : (parse_issue_body issue.body).feed with
      | none => exact ⟨rfl, rfl⟩
      | some fd =>
        rcases h with h1 | h2 | h3 | ⟨fd2, hfd2, hemp⟩
        · rw [hti] at h1; exact absurd h1 (by simp)
        · rw [hui] at h2; exact absurd h2 (by simp)
        · rw [hfi] at h3; exact absurd h3 (by simp)
        · rw [hfi] at hfd2
          have hfd : fd = fd2 := by
            simpa using hfd2
          dsimp only
          rw [hfd, if_pos hemp]
          exact ⟨rfl, rfl⟩

theorem process_rejection_atomic_witness :
    (∃ fd, (parse_issue_body body0).feed = some fd ∧
      (fun _ : String => ([] : List Post)) fd = []) ∧
    (process_single_issue (fun _ => true) (fun _ => [])
      "2024-05-05 00:00:00" ⟨7, body0, ["友链申请"]⟩ []).directory = [] ∧
    (process_single_issue (fun _ => true) (fun _ => [])
      "2024-05-05 00:00:00" ⟨7, body0, ["友链申请"]⟩ []).accepted = false :=
  ⟨⟨String.mk (trimChars "https://a.example/feed".toList), rfl, rfl⟩,
    (process_rejection_atomic (fun _ => true) (fun _ => [])
      "2024-05-05 00:00:00" ⟨7, body0, ["友链申请"]⟩ []
      (Or.inr (Or.inr (Or.inr
        ⟨String.mk (trimChars "https://a.example/feed".toList), rfl, rfl⟩)))).1,
    (process_rejection_atomic (fun _ => true) (fun _ => [])
      "2024-05-05 00:00:00" ⟨7, body0, ["友链申请"]⟩ []
      (Or.inr (Or.inr (Or.inr
        ⟨String.mk (trimChars "https://a.example/feed".toList), rfl, rfl⟩)))).2⟩

/-- C4: the probe is advisory and the feed authoritative — whenever the
required fields parse and the feed fetch returns at least one post, the
submission is accepted (for every probe verdict, in particular a failing
probe), the merged entry's `online` flag is exactly the probe verdict,
and the status label passed to the label update is `在线` ("online") or
`访问受限` ("restricted") according to that verdict, together with
`已通过` ("approved"). -/
theorem process_probe_advisory (probe : String → Bool)
    (fetch : String → List Post) (now : String) (issue : Issue)
    (data : List Entry) (t u fd : String)
    (ht : (parse_issue_body issue.body).title = some t)
    (hu : (parse_issue_body issue.body).url = some u)
    (hf : (parse_issue_body issue.body).feed = some fd)
    (hp : fetch fd ≠ []) :
    (process_single_issue probe fetch now issue data).accepted = true ∧
    (process_single_issue probe fetch now issue data).newLabels =
      some [(if probe u then "在线" else "访问受限"), "已通过"] ∧
    friendData (parse_issue_body issue.body) t u fd (fetch fd) issue now
        (probe u) ∈ (process_single_issue probe fetch now issue data).directory ∧
    (friendData (parse_issue_body issue.body) t u fd (fetch fd) issue now
        (probe u)).online = probe u := by
  rw [process_accepted_directory probe fetch now issue data t u fd ht hu hf hp]
  exact ⟨rfl, rfl, upsertEntry_mem _ _ _, rfl⟩

theorem process_probe_advisory_witness :
    (parse_issue_body body0).title = some "Blog" ∧
    ((fun _ : String => [Post.mk "t" "l" "2024-01-01 00:00"])
      (String.mk (trimChars "https://a.example/feed".toList)) ≠ []) ∧
    (process_single_issue (fun _ => false)
      (fun _ => [Post.mk "t" "l" "2024-01-01 00:00"]) "2024-05-05 00:00:00"
      ⟨7, body0, ["友链申请"]⟩ []).accepted = true ∧
    (process_single_issue (fun _ => false)
      (fun _ => [Post.mk "t" "l" "2024-01-01 00:00"]) "2024-05-05 00:00:00"
      ⟨7, body0, ["友链申请"]⟩ []).newLabels = some ["访问受限", "已通过"] :=
  ⟨rfl, by decide,
    (process_probe_advisory (fun _ => false)
      (fun _ => [Post.mk "t" "l" "2024-01-01 00:00"]) "2024-05-05 00:00:00"
      ⟨7, body0, ["友链申请"]⟩ [] (String.mk (trimChars "Blog".toList))
      (String.mk (trimChars "https://a.example".toList))
      (String.mk (trimChars "https://a.example/feed".toList))
      rfl rfl rfl (by decide)).1,
    (process_probe_advisory (fun _ => false)
      (fun _ => [Post.mk "t" "l" "2024-01-01 00:00"]) "2024-05-05 00:00:00"
      ⟨7, body0, ["友链申请"]⟩ [] (String.mk (trimChars "Blog".toList))
      (String.mk (trimChars "https://a.example".toList))
      (String.mk (trimChars "https://a.example/feed".toList))
      rfl rfl rfl (by decide)).2.1⟩

/-- C1: upserting is idempotent by submission identity — starting from a
directory with pairwise-distinct issue numbers, processing the same
submission's accepted outcome twice in a row leaves exactly one entry
for that issue number (the filter by that number is a one-element list),
and that entry is precisely the `friend_data` built by the second run. -/
theorem process_upsert_idempotent (probe1 probe2 : String → Bool)
    (fetch1 fetch2 : String → List Post) (now1 now2 : String)
    (issue : Issue) (data : List Entry) (t u fd : String)
    (hnd : data.Pairwise (fun a b => a.issue_number ≠ b.issue_number))
    (ht : (parse_issue_body issue.body).title = some t)
    (hu : (parse_issue_body issue.body).url = some u)
    (hf : (parse_issue_body issue.body).feed = some fd)
    (h1 : fetch1 fd ≠ []) (h2 : fetch2 fd ≠ []) :
    ((process_single_issue probe2 fetch2 now2 issue
        (process_single_issue probe1 fetch1 now1 issue data).directory).directory).filter
        (fun e => e.issue_number == issue.number) =
      [friendData (parse_issue_body issue.body) t u fd (fetch2 fd) issue now2
        (probe2 u)] := by
  rw [process_accepted_directory probe1 fetch1 now1 issue data t u fd ht hu hf h1]
  rw [process_accepted_directory probe2 fetch2 now2 issue _ t u fd ht hu hf h2]
  dsimp only
  refine upsertEntry_filter _ _ _ rfl ?_
  exact upsertEntry_pairwise _ _ _ rfl hnd

theorem process_upsert_idempotent_witness :
    ([] : List Entry).Pairwise (fun a b => a.issue_number ≠ b.issue_number) ∧
    ((process_single_issue (fun _ => true)
        (fun _ => [Post.mk "t2" "l2" "2024-02-02 00:00"]) "2024-06-06 00:00:00"
        ⟨7, body0, ["友链申请"]⟩
        (process_single_issue (fun _ => true)
          (fun _ => [Post.mk "t1" "l1" "2024-01-01 00:00"]) "2024-05-05 00:00:00"
          ⟨7, body0, ["友链申请"]⟩ []).directory).directory).filter
        (fun e => e.issue_number == 7) =
      [friendData (parse_issue_body body0)
        (String.mk (trimChars "Blog".toList))
        (String.mk (trimChars "https://a.example".toList))
        (String.mk (trimChars "https://a.example/feed".toList))
        [Post.mk "t2" "l2" "2024-02-02 00:00"] ⟨7, body0, ["友链申请"]⟩
        "2024-06-06 00:00:00" true] :=
  ⟨List.Pairwise.nil,
    process_upsert_idempotent (fun _ => true) (fun _ => true)
      (fun _ => [Post.mk "t1" "l1" "2024-01-01 00:00"])
      (fun _ => [Post.mk "t2" "l2" "2024-02-02 00:00"])
      "2024-05-05 00:00:00" "2024-06-06 00:00:00" ⟨7, body0, ["友链申请"]⟩ []
      (String.mk (trimChars "Blog".toList))
      (String.mk (trimChars "https://a.example".toList))
      (String.mk (trimChars "https://a.example/feed".toList))
      List.Pairwise.nil rfl rfl rfl (by decide) (by decide)⟩

/-!
## Ordering lemmas for the save-time sort
-/

theorem filter_orderedInsert_zero (a : Entry) (l : List Entry) :
    (List.orderedInsert sortLE a l).filter (fun e => sortTime e == 0) =
      if sortTime a == 0 then a :: l.filter (fun e => sortTime e == 0)
      else l.filter (fun e => sortTime e == 0) := by
  induction l with
  | nil =>
    cases ha : (sortTime a == 0) with
    | true => simp [List.orderedInsert, List.filter, ha]
    | false => simp [List.orderedInsert, List.filter, ha]
  | cons b l ih =>
    simp only [List.orderedInsert]
    by_cases hab : sortLE a b
    · rw [if_pos hab]
      rw [List.filter_cons]
    · rw [if_neg hab]
      have hlt : sortTime a < sortTime b := not_le.mp hab
      rw [List.filter_cons, ih]
      cases ha : (sortTime a == 0) with
      | true =>
        have ha' : sortTime a = 0 := by simpa using ha
        have hbpos : 0 < sortTime b := ha' ▸ hlt
        have hb : (sortTime b == 0) = false := by
          simp [hbpos.ne']
        simp [ha, hb, List.filter_cons]
      | false =>
        simp [ha, List.filter_cons]

theorem filter_insertionSort_zero (l : List Entry) :
    (List.insertionSort sortLE l).filter (fun e => sortTime e == 0) =
      l.filter (fun e => sortTime e == 0) := by
  induction l with
  | nil => rfl
  | cons x l ih =>
    simp only [List.insertionSort]
    rw [filter_orderedInsert_zero, ih, List.filter_cons]

/-- Whether an entry has a first post with a parseable published time
(the entries the spec calls "with parseable first-post times"). -/
def parseableTime (e : Entry) : Bool :=
  match e.posts with
  | [] => false
  | p :: _ => (parse_sort_time p.published).isSome

/-- Formalization of the claim's placement property: every entry with no
posts or an unparseable first-post time comes after all entries with
parseable times. -/
def zeroTimeLast (l : List Entry) : Prop :=
  ∀ i j : Fin l.length, parseableTime (l.get i) = false →
    parseableTime (l.get j) = true → (j : Nat) < (i : Nat)

/-- Entry whose first post parses to a pre-epoch (negative) timestamp. -/
def entryOld1900 : Entry :=
  { title := "old", url := "", icon := "", description := "", feed := "",
    posts := [Post.mk "p" "" "1900-01-01 00:00"], issue_number := 1,
    labels := [], last_checked := "", online := true }

/-- Entry with no posts (sort key zero). -/
def entryNoPosts : Entry :=
  { title := "none", url := "", icon := "", description := "", feed := "",
    posts := [], issue_number := 2, labels := [], last_checked := "",
    online := true }

/-- Entry whose first post parses to a positive timestamp. -/
def entryPos2024 : Entry :=
  { title := "new", url := "", icon := "", description := "", feed := "",
    posts := [Post.mk "p" "" "2024-01-01 00:00"], issue_number := 3,
    labels := [], last_checked := "", online := true }

/-- C2 counterexample: the claim that zero-time entries (no posts or
unparseable time) are placed after ALL entries with parseable times is
false — a parseable pre-epoch time such as `1900-01-01 00:00` has a
negative timestamp, so the descending sort places the post-less entry
(key 0) before it. -/
theorem save_data_zero_not_always_last :
    ¬ zeroTimeLast (save_data [entryOld1900, entryNoPosts]) := by
  intro h
  have h01 := h ⟨0, by decide⟩ ⟨1, by decide⟩ (by decide) (by decide)
  exact absurd h01 (by decide)

/-- C2 (amended): after the save step the entry order is nonincreasing in
the computed sort key (parsed first-post timestamp, 0 for no posts or
unparseable); hence entries with parseable, pairwise-distinct first-post
times appear in strictly descending time order, and every zero-key entry
comes after every entry with a positive-timestamp time; zero-key entries
keep the relative order they had before the sort (stability), and the
result is a permutation of the input. What the original claim adds — that
zero-key entries come after ALL parseable entries — fails for parseable
times at or before the Unix epoch, whose keys are ≤ 0. -/
theorem save_data_order_amended (content : List Entry) :
    (save_data content).Perm content ∧
    (save_data content).Pairwise sortLE ∧
    ((save_data content).filter (fun e => sortTime e == 0) =
      content.filter (fun e => sortTime e == 0)) ∧
    (∀ i j : Fin (save_data content).length, (i : Nat) < (j : Nat) →
      parseableTime ((save_data content).get i) = true →
      parseableTime ((save_data content).get j) = true →
      sortTime ((save_data content).get i) ≠ sortTime ((save_data content).get j) →
      sortTime ((save_data content).get j) < sortTime ((save_data content).get i)) ∧
    (∀ i j : Fin (save_data content).length,
      sortTime ((save_data content).get i) = 0 →
      0 < sortTime ((save_data content).get j) → (j : Nat) < (i : Nat)) := by
  have hpw : (save_data content).Pairwise sortLE :=
    List.sorted_insertionSort sortLE content
  refine ⟨List.perm_insertionSort sortLE content, hpw,
    filter_insertionSort_zero content, ?_, ?_⟩
  · intro i j hij hpi hpj hne
    have hle : sortLE ((save_data content).get i) ((save_data content).get j) :=
      List.pairwise_iff_get.mp hpw i j hij
    exact lt_of_le_of_ne hle (Ne.symm hne)
  · intro i j hzi hpj
    rcases Nat.lt_trichotomy (i : Nat) (j : Nat) with hij | hij | hij
    · have hle : sortLE ((save_data content).get i) ((save_data content).get j) :=
        List.pairwise_iff_get.mp hpw i j hij
      unfold sortLE at hle
      rw [hzi] at hle
      exact absurd hpj (not_lt.mpr hle)
    · exfalso
      have heq : i = j := Fin.ext hij
      rw [heq] at hzi
      rw [hzi] at hpj
      exact lt_irrefl _ hpj
    · exact hij

theorem save_data_order_amended_witness :
    sortTime ((save_data [entryNoPosts, entryPos2024]).get ⟨1, by decide⟩) = 0 ∧
    0 < sortTime ((save_data [entryNoPosts, entryPos2024]).get ⟨0, by decide⟩) ∧
    (0 : Nat) < 1 :=
  ⟨by decide, by decide,
    (save_data_order_amended [entryNoPosts, entryPos2024]).2.2.2.2
      ⟨1, by decide⟩ ⟨0, by decide⟩ (by decide) (by decide)⟩

/-!
## Feed normalization claims
-/

/-- Specification-side normalization of one feed entry, written from the
claim's wording for comparison with the code's `normalizePost`: title and
link are the entry's values or the empty string when absent; the
publication time is read from `published` or, if absent, `updated`,
rendered canonically when the external parser can parse it and left as
the raw source string otherwise (with the empty string for a wholly
missing time). -/
def specNormalizePost (dparse : String → Option DateTime) (e : FeedEntry) :
    Post :=
  { title := (match e.title with | some t => t | none => "")
    link := (match e.link with | some l => l | none => "")
    published :=
      match (match e.published with | some p => some p | none => e.updated) with
      | none => ""
      | some raw =>
        match dparse raw with
        | some dt => fmtCanonical dt
        | none => raw }

theorem normalizePost_eq_spec (dparse : String → Option DateTime)
    (hd : dparse "" = none) (e : FeedEntry) :
    normalizePost dparse e = specNormalizePost dparse e := by
  unfold normalizePost specNormalizePost
  cases hp : e.published with
  | some p =>
    dsimp only
    by_cases hpe : p = ""
    · subst hpe
      rw [hd]
      simp
    · rw [if_neg hpe]
  | none =>
    cases hu : e.updated with
    | some q =>
      dsimp only
      by_cases hqe : q = ""
      · subst hqe
        rw [hd]
        simp
      · rw [if_neg hqe]
    | none => rfl

theorem feedLoop_eq_map (dparse : String → Option DateTime)
    (l : List FeedEntry) : feedLoop dparse l = l.map (normalizePost dparse) := by
  induction l with
  | nil => rfl
  | cons e rest ih => simp [feedLoop, ih]

theorem process_feed_entries_length (dparse : String → Option DateTime)
    (feed : Feed) (mp : Nat) : (process_feed_entries dparse feed mp).length ≤ mp := by
  unfold process_feed_entries
  rw [feedLoop_eq_map, List.length_map]
  exact List.length_take_le mp feed.entries

/-- C8: feed entry normalization and cap — the fetched posts are exactly
the first `maxPosts` feed entries, in order, normalized as the claim
describes (requires only that the external date parser fails on the
empty string, as `dateutil` does); the result never exceeds `maxPosts`;
and `fetch_rss_with_fallback`, whose `maxPosts` defaults to 3, returns
either `[]` or the normalization of some fetched feed capped at 3, hence
at most 3 posts. -/
theorem feed_normalization_cap (dparse : String → Option DateTime)
    (feed : Feed) (mp : Nat) (env : FeedEnv) (hd : dparse "" = none) :
    process_feed_entries dparse feed mp =
      (feed.entries.take mp).map (specNormalizePost dparse) ∧
    (process_feed_entries dparse feed mp).length ≤ mp ∧
    (fetch_rss_with_fallback env).length ≤ 3 ∧
    (fetch_rss_with_fallback env = [] ∨
      ∃ f2 : Feed, fetch_rss_with_fallback env = process_feed_entries env.dparse f2 3) := by
  refine ⟨?_, process_feed_entries_length dparse feed mp, ?_, ?_⟩
  · unfold process_feed_entries
    rw [feedLoop_eq_map]
    exact List.map_congr_left (fun e _ => normalizePost_eq_spec dparse hd e)
  · unfold fetch_rss_with_fallback
    cases env.direct with
    | some f => exact process_feed_entries_length _ _ _
    | none =>
      cases env.resolved with
      | some ip =>
        cases env.ipFetch with
        | some f => exact process_feed_entries_length _ _ _
        | none => exact Nat.le_of_lt (by simp)
      | none => exact Nat.le_of_lt (by simp)
  · unfold fetch_rss_with_fallback
    cases env.direct with
    | some f => exact Or.inr ⟨f, rfl⟩
    | none =>
      cases env.resolved with
      | some ip =>
        cases env.ipFetch with
        | some f => exact Or.inr ⟨f, rfl⟩
        | none => exact Or.inl rfl
      | none => exact Or.inl rfl

/-- Date parser used by feed witnesses: recognizes one fixed RFC-ish
string, fails on everything else (in particular on the empty string). -/
def dparse0 : String → Option DateTime :=
  fun s => if s = "Mon, 01 Jan 2024 03:04:05 GMT"
    then some ⟨2024, 1, 1, 3, 4⟩ else none

/-- Four-entry feed used by the C8 witness. -/
def feed0 : Feed :=
  { entries :=
      [ { title := some "a", link := some "la",
          published := some "Mon, 01 Jan 2024 03:04:05 GMT", updated := none },
        { title := none, link := none, published := none,
          updated := some "oddly-formatted" },
        { title := some "c", link := some "lc", published := none,
          updated := none },
        { title := some "d", link := some "ld", published := some "x",
          updated := none } ] }

theorem feed_normalization_cap_witness :
    dparse0 "" = none ∧
    process_feed_entries dparse0 feed0 3 =
      [Post.mk "a" "la" "2024-01-01 03:04",
       Post.mk "" "" "oddly-formatted",
       Post.mk "c" "lc" ""] ∧
    (fetch_rss_with_fallback
      { dparse := dparse0, direct := some feed0, resolved := none,
        ipFetch := none }).length ≤ 3 :=
  ⟨rfl,
    by
      have h := (feed_normalization_cap dparse0 feed0 3
        { dparse := dparse0, direct := some feed0, resolved := none,
          ipFetch := none } rfl).1
      rw [h]
      decide,
    (feed_normalization_cap dparse0 feed0 3
      { dparse := dparse0, direct := some feed0, resolved := none,
        ipFetch := none } rfl).2.2.1⟩

/-!
## Probe trace classifiers and lemmas
-/

/-- Recognizer for direct-GET events. -/
def isDirectGet : ProbeEvent → Bool
  | ProbeEvent.getDirect _ => true
  | _ => false

/-- Recognizer for IP-literal-retry GET events. -/
def isIpGet : ProbeEvent → Bool
  | ProbeEvent.getIp _ _ => true
  | _ => false

/-- Recognizer for DNS-resolution attempts. -/
def isResolveTry : ProbeEvent → Bool
  | ProbeEvent.resolveTry _ => true
  | _ => false

/-- Recognizer for raw TCP connects. -/
def isTcpConn : ProbeEvent → Bool
  | ProbeEvent.tcpConn _ _ => true
  | _ => false

theorem getD_mem {α : Type} {l : List α} {i : Nat} {d : α}
    (h : i < l.length) : l.getD i d ∈ l := by
  induction l generalizing i with
  | nil => exact absurd h (by simp)
  | cons x xs ih =>
    cases i with
    | zero => simp
    | succ k =>
      have hk : k < xs.length := by simpa using h
      simp only [List.getD_cons_succ]
      exact List.mem_cons_of_mem _ (ih hk)

theorem getD_append_lt {α : Type} (l₁ l₂ : List α) (d : α) (i : Nat)
    (h : i < l₁.length) : (l₁ ++ l₂).getD i d = l₁.getD i d := by
  induction l₁ generalizing i with
  | nil => exact absurd h (by simp)
  | cons x xs ih =>
    cases i with
    | zero => rfl
    | succ k =>
      have hk : k < xs.length := by simpa using h
      simp only [List.cons_append, List.getD_cons_succ]
      exact ih k hk

theorem getD_append_ge {α : Type} (l₁ l₂ : List α) (d : α) (i : Nat)
    (h : l₁.length ≤ i) : (l₁ ++ l₂).getD i d = l₂.getD (i - l₁.length) d := by
  induction l₁ generalizing i with
  | nil => simp
  | cons x xs ih =>
    cases i with
    | zero => exact absurd h (by simp)
    | succ k =>
      have hk : xs.length ≤ k := by simpa using h
      simp only [List.cons_append, List.getD_cons_succ, List.length_cons]
      rw [ih k hk]
      congr 1
      omega

theorem resolveLoop_events (env : ProbeEnv) (host : String) (n : Nat)
    (s : ProbeState) :
    ∀ ev ∈ (resolveLoop env host n s).2.2, ev = ProbeEvent.resolveTry host := by
  induction n generalizing s with
  | zero => intro ev hev; exact absurd hev (by simp [resolveLoop])
  | succ k ih =>
    intro ev hev
    unfold resolveLoop at hev
    cases hg : env.ghbn s.r with
    | some ip =>
      rw [hg] at hev
      simpa using hev
    | none =>
      rw [hg] at hev
      dsimp only at hev
      rcases List.mem_cons.mp hev with h1 | h2
      · exact h1
      · exact ih _ ev h2

theorem resolveLoop_length (env : ProbeEnv) (host : String) (n : Nat)
    (s : ProbeState) : (resolveLoop env host n s).2.2.length ≤ n := by
  induction n generalizing s with
  | zero => simp [resolveLoop]
  | succ k ih =>
    unfold resolveLoop
    cases hg : env.ghbn s.r with
    | some ip => simp
    | none =>
      dsimp only
      simp only [List.length_cons]
      exact Nat.succ_le_succ (ih _)

theorem resolveLoop_counts (env : ProbeEnv) (host : String) (n : Nat)
    (s : ProbeState) :
    (resolveLoop env host n s).2.2.countP isDirectGet = 0 ∧
    (resolveLoop env host n s).2.2.countP isIpGet = 0 ∧
    (resolveLoop env host n s).2.2.countP isTcpConn = 0 ∧
    (resolveLoop env host n s).2.2.countP isResolveTry ≤ n := by
  refine ⟨?_, ?_, ?_, ?_⟩
  · refine List.countP_eq_zero.mpr ?_
    intro ev hev
    rw [resolveLoop_events env host n s ev hev]
    simp [isDirectGet]
  · refine List.countP_eq_zero.mpr ?_
    intro ev hev
    rw [resolveLoop_events env host n s ev hev]
    simp [isIpGet]
  · refine List.countP_eq_zero.mpr ?_
    intro ev hev
    rw [resolveLoop_events env host n s ev hev]
    simp [isTcpConn]
  · exact le_trans (List.countP_le_length _) (resolveLoop_length env host n s)

theorem oneAttempt_events (env : ProbeEnv) (url : Url) (s : ProbeState) :
    ∀ ev ∈ (oneAttempt env url s).2.2,
      ev = ProbeEvent.getDirect url.raw ∨
      ev = ProbeEvent.resolveTry url.hostname ∨
      ∃ ip, ev = ProbeEvent.getIp (url.raw.replace url.hostname ip)
        url.hostname := by
  intro ev hev
  unfold oneAttempt at hev
  cases hg : env.get s.g with
  | ok st => rw [hg] at hev; left; simpa using hev
  | connOther => rw [hg] at hev; left; simpa using hev
  | otherErr => rw [hg] at hev; left; simpa using hev
  | connNameRes =>
    rw [hg] at hev
    dsimp only at hev
    cases hr : (resolve_domain env url.hostname ⟨s.g + 1, s.r⟩).1 with
    | none =>
      rw [hr] at hev
      dsimp only at hev
      rcases List.mem_cons.mp hev with h1 | h2
      · left; exact h1
      · right; left
        exact resolveLoop_events _ _ _ _ ev h2
    | some ip =>
      rw [hr] at hev
      dsimp only at hev
      cases hg2 : env.get (resolve_domain env url.hostname ⟨s.g + 1, s.r⟩).2.1.g with
      | ok st2 =>
        rw [hg2] at hev
        dsimp only at hev
        rcases List.mem_cons.mp hev with h1 | h2
        · left; exact h1
        · rcases List.mem_append.mp h2 with h3 | h4
          · right; left; exact resolveLoop_events _ _ _ _ ev h3
          · right; right; exact ⟨ip, by simpa using h4⟩
      | connNameRes =>
        rw [hg2] at hev
        dsimp only at hev
        rcases List.mem_cons.mp hev with h1 | h2
        · left; exact h1
        · rcases List.mem_append.mp h2 with h3 | h4
          · right; left; exact resolveLoop_events _ _ _ _ ev h3
          · right; right; exact ⟨ip, by simpa using h4⟩
      | connOther =>
        rw [hg2] at hev
        dsimp only at hev
        rcases List.mem_cons.mp hev with h1 | h2
        · left; exact h1
        · rcases List.mem_append.mp h2 with h3 | h4
          · right; left; exact resolveLoop_events _ _ _ _ ev h3
          · right; right; exact ⟨ip, by simpa using h4⟩
      | otherErr =>
        rw [hg2] at hev
        dsimp only at hev
        rcases List.mem_cons.mp hev with h1 | h2
        · left; exact h1
        · rcases List.mem_append.mp h2 with h3 | h4
          · right; left; exact resolveLoop_events _ _ _ _ ev h3
          · right; right; exact ⟨ip, by simpa using h4⟩

theorem oneAttempt_trace_cases (env : ProbeEnv) (url : Url) (s : ProbeState) :
    (oneAttempt env url s).2.2 = [ProbeEvent.getDirect url.raw] ∨
    ∃ revs tl, (oneAttempt env url s).2.2 =
        ProbeEvent.getDirect url.raw :: (revs ++ tl) ∧
      (∀ ev ∈ revs, ev = ProbeEvent.resolveTry url.hostname) ∧
      revs.length ≤ 3 ∧
      (tl = [] ∨ ∃ ip, tl = [ProbeEvent.getIp (url.raw.replace url.hostname ip)
        url.hostname]) := by
  unfold oneAttempt
  cases hg : env.get s.g with
  | ok st => left; rfl
  | connOther => left; rfl
  | otherErr => left; rfl
  | connNameRes =>
    right
    dsimp only
    cases hr : (resolve_domain env url.hostname ⟨s.g + 1, s.r⟩).1 with
    | none =>
      refine ⟨(resolve_domain env url.hostname ⟨s.g + 1, s.r⟩).2.2, [],
        ?_, ?_, ?_, Or.inl rfl⟩
      · rw [List.append_nil]
      · exact resolveLoop_events _ _ _ _
      · exact resolveLoop_length _ _ _ _
    | some ip =>
      refine ⟨(resolve_domain env url.hostname ⟨s.g + 1, s.r⟩).2.2,
        [ProbeEvent.getIp (url.raw.replace url.hostname ip) url.hostname],
        ?_, ?_, ?_, Or.inr ⟨ip, rfl⟩⟩
      · cases hg2 : env.get (resolve_domain env url.hostname ⟨s.g + 1, s.r⟩).2.1.g <;> rfl
      · exact resolveLoop_events _ _ _ _
      · exact resolveLoop_length _ _ _ _

theorem oneAttempt_counts (env : ProbeEnv) (url : Url) (s : ProbeState) :
    (oneAttempt env url s).2.2.countP isDirectGet ≤ 1 ∧
    (oneAttempt env url s).2.2.countP isIpGet ≤ 1 ∧
    (oneAttempt env url s).2.2.countP isResolveTry ≤ 3 ∧
    (oneAttempt env url s).2.2.countP isTcpConn = 0 := by
  rcases oneAttempt_trace_cases env url s with h | ⟨revs, tl, heq, hrevs, hlen, htl⟩
  · rw [h]
    simp [List.countP_cons, isDirectGet, isIpGet, isResolveTry, isTcpConn]
  · rw [heq]
    have hrd : revs.countP isDirectGet = 0 := by
      refine List.countP_eq_zero.mpr ?_
      intro ev hev
      rw [hrevs ev hev]
      simp [isDirectGet]
    have hri : revs.countP isIpGet = 0 := by
      refine List.countP_eq_zero.mpr ?_
      intro ev hev
      rw [hrevs ev hev]
      simp [isIpGet]
    have hrt : revs.countP isTcpConn = 0 := by
      refine List.countP_eq_zero.mpr ?_
      intro ev hev
      rw [hrevs ev hev]
      simp [isTcpConn]
    have hrr : revs.countP isResolveTry ≤ 3 :=
      le_trans (List.countP_le_length _) hlen
    rcases htl with h0 | ⟨ip, hip⟩
    · subst h0
      simp only [List.countP_cons, List.countP_append, List.countP_nil]
      refine ⟨?_, ?_, ?_, ?_⟩ <;>
        simp [isDirectGet, isIpGet, isResolveTry, isTcpConn, hrd, hri, hrt] <;>
        omega
    · subst hip
      simp only [List.countP_cons, List.countP_append, List.countP_nil]
      refine ⟨?_, ?_, ?_, ?_⟩ <;>
        simp [isDirectGet, isIpGet, isResolveTry, isTcpConn, hrd, hri, hrt] <;>
        omega

theorem retryLoop_events (env : ProbeEnv) (url : Url) (n : Nat)
    (s : ProbeState) :
    ∀ ev ∈ (retryLoop env url n s).2.2,
      ev = ProbeEvent.getDirect url.raw ∨
      ev = ProbeEvent.resolveTry url.hostname ∨
      ∃ ip, ev = ProbeEvent.getIp (url.raw.replace url.hostname ip)
        url.hostname := by
  induction n generalizing s with
  | zero => intro ev hev; exact absurd hev (by simp [retryLoop])
  | succ k ih =>
    intro ev hev
    unfold retryLoop at hev
    by_cases ha : (oneAttempt env url s).1 = true
    · rw [if_pos ha] at hev
      exact oneAttempt_events env url s ev hev
    · rw [if_neg ha] at hev
      dsimp only at hev
      rcases List.mem_append.mp hev with h1 | h2
      · exact oneAttempt_events env url s ev h1
      · exact ih _ ev h2

theorem retryLoop_counts (env : ProbeEnv) (url : Url) (n : Nat)
    (s : ProbeState) :
    (retryLoop env url n s).2.2.countP isDirectGet ≤ n ∧
    (retryLoop env url n s).2.2.countP isIpGet ≤ n ∧
    (retryLoop env url n s).2.2.countP isResolveTry ≤ 3 * n ∧
    (retryLoop env url n s).2.2.countP isTcpConn = 0 := by
  induction n generalizing s with
  | zero => simp [retryLoop]
  | succ k ih =>
    unfold retryLoop
    obtain ⟨a1, a2, a3, a4⟩ := oneAttempt_counts env url s
    by_cases ha : (oneAttempt env url s).1 = true
    · rw [if_pos ha]
      dsimp only
      exact ⟨le_trans a1 (by omega), le_trans a2 (by omega),
        le_trans a3 (by omega), a4⟩
    · rw [if_neg ha]
      dsimp only
      obtain ⟨b1, b2, b3, b4⟩ := ih (oneAttempt env url s).2.1
      simp only [List.countP_append]
      exact ⟨by omega, by omega, by omega, by omega⟩

theorem oneAttempt_fails (env : ProbeEnv) (url : Url) (s : ProbeState)
    (h : ∀ n st, env.get n = GetOutcome.ok st → st ≠ 200) :
    (oneAttempt env url s).1 = false := by
  unfold oneAttempt
  cases hg : env.get s.g with
  | ok st =>
    dsimp only
    have := h s.g st hg
    simp [this]
  | connOther => rfl
  | otherErr => rfl
  | connNameRes =>
    dsimp only
    cases hr : (resolve_domain env url.hostname ⟨s.g + 1, s.r⟩).1 with
    | none => rfl
    | some ip =>
      dsimp only
      cases hg2 : env.get (resolve_domain env url.hostname ⟨s.g + 1, s.r⟩).2.1.g with
      | ok st2 =>
        dsimp only
        have := h _ st2 hg2
        simp [this]
      | connNameRes => rfl
      | connOther => rfl
      | otherErr => rfl

theorem retryLoop_fails (env : ProbeEnv) (url : Url) (n : Nat)
    (s : ProbeState)
    (h : ∀ m st, env.get m = GetOutcome.ok st → st ≠ 200) :
    (retryLoop env url n s).1 = false := by
  induction n generalizing s with
  | zero => rfl
  | succ k ih =>
    unfold retryLoop
    rw [if_neg (by simp [oneAttempt_fails env url s h])]
    exact ih _

theorem resolve_domain_events (env : ProbeEnv) (host : String)
    (s : ProbeState) :
    ∀ ev ∈ (resolve_domain env host s).2.2, ev = ProbeEvent.resolveTry host :=
  resolveLoop_events env host 3 s

theorem resolve_domain_counts (env : ProbeEnv) (host : String)
    (s : ProbeState) :
    (resolve_domain env host s).2.2.countP isDirectGet = 0 ∧
    (resolve_domain env host s).2.2.countP isIpGet = 0 ∧
    (resolve_domain env host s).2.2.countP isTcpConn = 0 ∧
    (resolve_domain env host s).2.2.countP isResolveTry ≤ 3 :=
  resolveLoop_counts env host 3 s

theorem robust_trace_decomp (env : ProbeEnv) (url : Url) :
    ∃ tail, (check_website_robust env url).2 =
        (check_website_with_retry env url).2.2 ++ tail ∧
      (∀ ev ∈ tail, ev = ProbeEvent.resolveTry url.hostname ∨
        ∃ ip p, ev = ProbeEvent.tcpConn ip p) ∧
      tail.countP isDirectGet = 0 ∧
      tail.countP isIpGet = 0 ∧
      tail.countP isResolveTry ≤ 3 ∧
      tail.countP isTcpConn ≤ 1 ∧
      ((check_website_with_retry env url).1 = true → tail = []) := by
  unfold check_website_robust
  by_cases hm : (check_website_with_retry env url).1 = true
  · refine ⟨[], ?_, by simp, rfl, rfl, by simp, by simp, fun _ => rfl⟩
    rw [if_pos hm]
    dsimp only
    rw [List.append_nil]
  · rw [if_neg hm]
    dsimp only
    cases hr : (resolve_domain env url.hostname
        (check_website_with_retry env url).2.1).1 with
    | none =>
      obtain ⟨c1, c2, c3, c4⟩ := resolve_domain_counts env url.hostname
        (check_website_with_retry env url).2.1
      refine ⟨(resolve_domain env url.hostname
          (check_website_with_retry env url).2.1).2.2, rfl, ?_, c1, c2, c4,
          by omega, ?_⟩
      · intro ev hev
        exact Or.inl (resolve_domain_events _ _ _ ev hev)
      · intro hc; exact absurd hc hm
    | some ip =>
      obtain ⟨c1, c2, c3, c4⟩ := resolve_domain_counts env url.hostname
        (check_website_with_retry env url).2.1
      refine ⟨(resolve_domain env url.hostname
            (check_website_with_retry env url).2.1).2.2 ++
          [ProbeEvent.tcpConn ip (url.port.getD
            (if url.scheme = "https" then 443 else 80))],
        ?_, ?_, ?_, ?_, ?_, ?_, ?_⟩
      · dsimp only
        rw [List.append_assoc]
      · intro ev hev
        rcases List.mem_append.mp hev with h1 | h2
        · exact Or.inl (resolve_domain_events _ _ _ ev h1)
        · exact Or.inr ⟨ip, _, by simpa using h2⟩
      · rw [List.countP_append, c1]
        simp [List.countP_cons, isDirectGet]
      · rw [List.countP_append, c2]
        simp [List.countP_cons, isIpGet]
      · rw [List.countP_append]
        have h2 : ([ProbeEvent.tcpConn ip (url.port.getD
            (if url.scheme = "https" then 443 else 80))]).countP isResolveTry = 0 := by
          simp [List.countP_cons, isResolveTry]
        omega
      · rw [List.countP_append, c3]
        have h2 : ([ProbeEvent.tcpConn ip (url.port.getD
            (if url.scheme = "https" then 443 else 80))]).countP isTcpConn = 1 := by
          simp [List.countP_cons, isTcpConn]
        omega
      · intro hc; exact absurd hc hm

theorem check_retry_events (env : ProbeEnv) (url : Url) :
    ∀ ev ∈ (check_website_with_retry env url).2.2,
      ev = ProbeEvent.getDirect url.raw ∨
      ev = ProbeEvent.resolveTry url.hostname ∨
      ∃ ip, ev = ProbeEvent.getIp (url.raw.replace url.hostname ip)
        url.hostname :=
  retryLoop_events env url 3 ⟨0, 0⟩

theorem check_retry_counts (env : ProbeEnv) (url : Url) :
    (check_website_with_retry env url).2.2.countP isDirectGet ≤ 3 ∧
    (check_website_with_retry env url).2.2.countP isIpGet ≤ 3 ∧
    (check_website_with_retry env url).2.2.countP isResolveTry ≤ 9 ∧
    (check_website_with_retry env url).2.2.countP isTcpConn = 0 :=
  retryLoop_counts env url 3 ⟨0, 0⟩

/-- C7: the probe is bounded and total — over any oracle environment the
whole fallback chain performs at most 3 direct GET attempts, at most one
IP-literal retry per attempt (3 in total), at most 12 DNS-resolution
calls (one three-resolver pass inside each failed name-resolution
attempt plus one final pass), and at most one TCP connect; being a total
Lean function it cannot loop or raise, and when every GET is non-200 and
the TCP connect fails it returns `false`. -/
theorem probe_bounded (env : ProbeEnv) (url : Url) :
    (check_website_robust env url).2.countP isDirectGet ≤ 3 ∧
    (check_website_robust env url).2.countP isIpGet ≤ 3 ∧
    (check_website_robust env url).2.countP isResolveTry ≤ 12 ∧
    (check_website_robust env url).2.countP isTcpConn ≤ 1 ∧
    ((∀ n st, env.get n = GetOutcome.ok st → st ≠ 200) → env.tcp ≠ 0 →
      (check_website_robust env url).1 = false) := by
  obtain ⟨tail, heq, htail, td, ti, tr, tt, htc⟩ := robust_trace_decomp env url
  obtain ⟨a1, a2, a3, a4⟩ := check_retry_counts env url
  refine ⟨?_, ?_, ?_, ?_, ?_⟩
  · rw [heq, List.countP_append]; omega
  · rw [heq, List.countP_append]; omega
  · rw [heq, List.countP_append]; omega
  · rw [heq, List.countP_append]; omega
  · intro h1 h2
    unfold check_website_robust
    have hrf : (check_website_with_retry env url).1 = false :=
      retryLoop_fails env url 3 ⟨0, 0⟩ h1
    rw [if_neg (by simp [hrf])]
    dsimp only
    cases hr : (resolve_domain env url.hostname
        (check_website_with_retry env url).2.1).1 with
    | none => rfl
    | some ip =>
      dsimp only
      exact beq_eq_false_iff_ne.mpr h2

/-- Probe environment in which every network operation fails
(non-name-resolution connection errors, no DNS answer, TCP error 1). -/
def envFail : ProbeEnv :=
  { get := fun _ => GetOutcome.connOther, ghbn := fun _ => none, tcp := 1 }

/-- URL used by the probe witnesses and counterexample. -/
def urlDemo : Url :=
  { raw := "https://blog.example/", hostname := "blog.example",
    scheme := "https", port := none }

theorem probe_bounded_witness :
    (∀ n st, envFail.get n = GetOutcome.ok st → st ≠ 200) ∧
    envFail.tcp ≠ 0 ∧
    (check_website_robust envFail urlDemo).1 = false ∧
    (check_website_robust envFail urlDemo).2.countP isDirectGet ≤ 3 :=
  ⟨fun n st h => absurd h (by simp [envFail]),
   by decide,
   (probe_bounded envFail urlDemo).2.2.2.2
     (fun n st h => absurd h (by simp [envFail])) (by decide),
   (probe_bounded envFail urlDemo).1⟩

/-- Formalization of the order asserted by the claim for strategies (2)
and (3): strategy (3), the IP-literal retry, runs only after strategy
(2), the DNS-resolution-plus-TCP-connect check — i.e. in the probe's
event trace every TCP connect precedes every IP-literal GET. -/
def probeStrategyOrderClaim (evs : List ProbeEvent) : Prop :=
  ∀ i j : Nat,
    isIpGet (evs.getD i (ProbeEvent.getDirect "")) = true →
    isTcpConn (evs.getD j (ProbeEvent.getDirect "")) = true → j < i

/-- Probe environment whose GETs all fail with a name-resolution
`ConnectionError`, whose DNS resolution succeeds, and whose TCP connect
fails — driving the probe through every strategy. -/
def envC5 : ProbeEnv :=
  { get := fun _ => GetOutcome.connNameRes,
    ghbn := fun _ => some "9.9.9.9", tcp := 1 }

/-- C5 counterexample: the claim's strategy order is wrong — the
IP-literal retry runs inside the direct-GET retry loop (strategy 1),
before the DNS-plus-TCP check (listed as strategy 2), not after it. In
the trace for `envC5`/`urlDemo`, event 2 is already an IP-literal GET
while the sole TCP connect is event 10, so no TCP connect precedes the
IP-literal GETs. -/
theorem probe_strategy_order_claim_false :
    ¬ probeStrategyOrderClaim (check_website_robust envC5 urlDemo).2 := by
  intro h
  have h2 := h 2 10 (by decide) (by decide)
  exact absurd h2 (by decide)

theorem oneAttempt_noNR (env : ProbeEnv) (url : Url) (s : ProbeState)
    (h : ∀ n, env.get n ≠ GetOutcome.connNameRes) :
    (oneAttempt env url s).2.2 = [ProbeEvent.getDirect url.raw] := by
  unfold oneAttempt
  cases hg : env.get s.g with
  | connNameRes => exact absurd hg (h s.g)
  | ok st => rfl
  | connOther => rfl
  | otherErr => rfl

theorem retryLoop_noNR (env : ProbeEnv) (url : Url) (n : Nat)
    (s : ProbeState) (h : ∀ m, env.get m ≠ GetOutcome.connNameRes) :
    ∀ ev ∈ (retryLoop env url n s).2.2, ev = ProbeEvent.getDirect url.raw := by
  induction n generalizing s with
  | zero => intro ev hev; exact absurd hev (by simp [retryLoop])
  | succ k ih =>
    intro ev hev
    unfold retryLoop at hev
    by_cases ha : (oneAttempt env url s).1 = true
    · rw [if_pos ha, oneAttempt_noNR env url s h] at hev
      simpa using hev
    · rw [if_neg ha] at hev
      dsimp only at hev
      rw [oneAttempt_noNR env url s h] at hev
      rcases List.mem_append.mp hev with h1 | h2
      · simpa using h1
      · exact ih _ ev h2

/-- C5 (amended): the probe's actual strategy order — strategy (1), the
direct GET with up to three retries, runs first; the IP-literal retry
(3) happens inside a failed attempt exactly when that attempt's failure
mode is DNS name resolution, substituting the resolved IP into the URL
and forwarding the original hostname as host header; the DNS-resolution
plus raw-TCP-connect check (2) runs only after all direct attempts fail,
so every IP-literal GET and every direct GET precedes any TCP connect,
and on a successful retry phase (short-circuit) no TCP connect happens
at all. The original claim's order of (2) before (3) is reversed. -/
theorem probe_strategy_order_amended (env : ProbeEnv) (url : Url) :
    (∀ i j : Nat, i < (check_website_robust env url).2.length →
      j < (check_website_robust env url).2.length →
      isIpGet ((check_website_robust env url).2.getD i
        (ProbeEvent.getDirect "")) = true →
      isTcpConn ((check_website_robust env url).2.getD j
        (ProbeEvent.getDirect "")) = true → i < j) ∧
    (∀ i j : Nat, i < (check_website_robust env url).2.length →
      j < (check_website_robust env url).2.length →
      isDirectGet ((check_website_robust env url).2.getD i
        (ProbeEvent.getDirect "")) = true →
      isTcpConn ((check_website_robust env url).2.getD j
        (ProbeEvent.getDirect "")) = true → i < j) ∧
    (∀ ev ∈ (check_website_robust env url).2, isIpGet ev = true →
      ∃ ip, ev = ProbeEvent.getIp (url.raw.replace url.hostname ip)
        url.hostname) ∧
    ((∀ n, env.get n ≠ GetOutcome.connNameRes) →
      (check_website_robust env url).2.countP isIpGet = 0) ∧
    ((check_website_with_retry env url).1 = true →
      (check_website_robust env url).2.countP isTcpConn = 0) := by
  obtain ⟨tail, heq, htail, td, ti, tr, tt, htc⟩ := robust_trace_decomp env url
  have hAnoTcp : ∀ ev ∈ (check_website_with_retry env url).2.2,
      isTcpConn ev = false := by
    intro ev hev
    rcases check_retry_events env url ev hev with h1 | h2 | ⟨ip, h3⟩
    · rw [h1]; rfl
    · rw [h2]; rfl
    · rw [h3]; rfl
  have htailNoIp : ∀ ev ∈ tail, isIpGet ev = false := by
    intro ev hev
    rcases htail ev hev with h1 | ⟨ip, p, h2⟩
    · rw [h1]; rfl
    · rw [h2]; rfl
  have htailNoDirect : ∀ ev ∈ tail, isDirectGet ev = false := by
    intro ev hev
    rcases htail ev hev with h1 | ⟨ip, p, h2⟩
    · rw [h1]; rfl
    · rw [h2]; rfl
  have hiA : ∀ i : Nat, i < (check_website_robust env url).2.length →
      isIpGet ((check_website_robust env url).2.getD i
        (ProbeEvent.getDirect "")) = true →
      i < (check_website_with_retry env url).2.2.length := by
    intro i hi hip
    by_contra hge
    push_neg at hge
    rw [heq, getD_append_ge _ _ _ _ hge] at hip
    rw [heq, List.length_append] at hi
    have hmem : tail.getD (i - (check_website_with_retry env url).2.2.length)
        (ProbeEvent.getDirect "") ∈ tail := getD_mem (by omega)
    rw [htailNoIp _ hmem] at hip
    exact absurd hip (by simp)
  have hjA : ∀ j : Nat,
      isTcpConn ((check_website_robust env url).2.getD j
        (ProbeEvent.getDirect "")) = true →
      (check_website_with_retry env url).2.2.length ≤ j := by
    intro j htcp
    by_contra hlt
    push_neg at hlt
    rw [heq, getD_append_lt _ _ _ _ hlt] at htcp
    have hmem : (check_website_with_retry env url).2.2.getD j
        (ProbeEvent.getDirect "") ∈ (check_website_with_retry env url).2.2 :=
      getD_mem hlt
    rw [hAnoTcp _ hmem] at htcp
    exact absurd htcp (by simp)
  refine ⟨?_, ?_, ?_, ?_, ?_⟩
  · intro i j hi hj hip htcp
    have h1 := hiA i hi hip
    have h2 := hjA j htcp
    omega
  · intro i j hi hj hdir htcp
    have h2 := hjA j htcp
    by_contra hge
    push_neg at hge
    have hjlen : j < (check_website_with_retry env url).2.2.length + tail.length := by
      rw [heq, List.length_append] at hj
      exact hj
    have hmem : tail.getD (j - (check_website_with_retry env url).2.2.length)
        (ProbeEvent.getDirect "") ∈ tail := getD_mem (by omega)
    have higeA : (check_website_with_retry env url).2.2.length ≤ i := by omega
    rw [heq, getD_append_ge _ _ _ _ higeA] at hdir
    have hle2 : i < (check_website_with_retry env url).2.2.length + tail.length := by
      rw [heq, List.length_append] at hi
      exact hi
    have hmem2 : tail.getD (i - (check_website_with_retry env url).2.2.length)
        (ProbeEvent.getDirect "") ∈ tail := getD_mem (by omega)
    rw [htailNoDirect _ hmem2] at hdir
    exact absurd hdir (by simp)
  · intro ev hev hip
    rw [heq] at hev
    rcases List.mem_append.mp hev with h1 | h2
    · rcases check_retry_events env url ev h1 with hd | hres | ⟨ip, hipev⟩
      · rw [hd] at hip; exact absurd hip (by simp [isIpGet])
      · rw [hres] at hip; exact absurd hip (by simp [isIpGet])
      · exact ⟨ip, hipev⟩
    · rw [htailNoIp _ h2] at hip
      exact absurd hip (by simp)
  · intro hNR
    rw [heq, List.countP_append]
    have hA0 : (check_website_with_retry env url).2.2.countP isIpGet = 0 := by
      refine List.countP_eq_zero.mpr ?_
      intro ev hev
      rw [retryLoop_noNR env url 3 ⟨0, 0⟩ hNR ev hev]
      simp [isIpGet]
    omega
  · intro hT
    rw [heq, htc hT, List.append_nil]
    exact (check_retry_counts env url).2.2.2

/-- Probe environment whose first direct GET already returns HTTP 200. -/
def envOK200 : ProbeEnv :=
  { get := fun _ => GetOutcome.ok 200, ghbn := fun _ => none, tcp := 1 }

theorem probe_strategy_order_amended_witness :
    (check_website_with_retry envOK200 urlDemo).1 = true ∧
    (check_website_robust envOK200 urlDemo).2.countP isTcpConn = 0 :=
  ⟨by decide,
    (probe_strategy_order_amended envOK200 urlDemo).2.2.2.2 (by decide)⟩
